import Mathlib

/-!
Verification of the simple_fdw foreign data wrapper
(simple_fdw/src/simple_fdw.c) against its natural-language specification.

The C file is shallowly embedded: each FDW callback becomes a Lean function
over explicit state.  PostgreSQL option lists (List of DefElem) become lists
of key/value string pairs; `ereport(ERROR, ...)` performs a non-local exit in
PostgreSQL (it longjmps to the enclosing error handler and the statements
after it never run), so an `ereport(ERROR, ...)` call is embedded as
returning an `Except.error` immediately, and any C statements textually
following it on the same branch are unreachable and have no counterpart in
the embedding.

The sqlite3 library is an external collaborator (its code is not part of
this repository); it is modelled from the boundary the spec describes: a
database handle carries the row set that the scan's query returns, a
prepared statement is a cursor position over those rows, and stepping a
cursor yields the next row or signals end of data (an exhausted cursor keeps
signalling end of data).
-/

namespace SimpleFdw

/-- One option as PostgreSQL hands it to the wrapper: a DefElem restricted to
its name (`defname`) and its string value (what `defGetString` returns). -/
structure DefElem where
  defname : String
  value : String
deriving Repr, DecidableEq

/-- The catalog context an option is validated against: the two catalogs
named by the wrapper's option table (`ForeignServerRelationId` for
server-level options and `ForeignTableRelationId` for table-level ones). -/
inductive Catalog where
  | foreignServer
  | foreignTable
deriving Repr, DecidableEq

/-- The static table of valid options (simple_fdw.c lines 100-111):
"database" in the server catalog, then "table" in the table catalog.  The
NULL sentinel terminating the C array is the end of the list. -/
def valid_options : List (String × Catalog) :=
  [("database", Catalog.foreignServer), ("table", Catalog.foreignTable)]

/-- simple_fdw.c lines 228-239: scan `valid_options` and report whether some
entry has this context and this option name. -/
def myIsValidOption (option : String) (context : Catalog) : Bool :=
  valid_options.any fun opt => context == opt.2 && opt.1 == option

/-- The hint string built at simple_fdw.c lines 184-190: walk the whole
`valid_options` table and append every option name whose context matches,
separated by ", " (the separator is prepended only when the buffer is
already non-empty). -/
def optionHint (catalog : Catalog) : String :=
  valid_options.foldl
    (fun buf opt =>
      if catalog == opt.2 then buf ++ (if buf.length > 0 then ", " else "") ++ opt.1
      else buf)
    ""

/-- The string interpolated into the errhint at line 195:
the built buffer when non-empty, the literal "<none>" otherwise. -/
def hintText (catalog : Catalog) : String :=
  if (optionHint catalog).length > 0 then optionHint catalog else "<none>"

/-- The two errors `simple_fdw_validator` can raise: an invalid option name
(line 192, carrying the offending key and the hint string) and a redundant
option (lines 202 and 212, carrying the key and the value of the repeated
occurrence). -/
inductive ValidationError where
  | unknownOption (key : String) (hint : String)
  | duplicateOption (key : String) (value : String)
deriving Repr, DecidableEq

/-- The foreach loop of `simple_fdw_validator` (simple_fdw.c lines 171-219).
`simple_database` / `simple_table` model the two local pointers that start
NULL and are set to the option's value when first seen; a set pointer on a
second occurrence raises the redundant-option error.  Validity is checked
first for each entry, so an invalid name errors before any duplicate check
of the same entry. -/
def validatorLoop (catalog : Catalog) (simple_database simple_table : Option String) :
    List DefElem → Except ValidationError Unit
  | [] => Except.ok ()
  | def_ :: rest =>
    if !myIsValidOption def_.defname catalog then
      Except.error (ValidationError.unknownOption def_.defname (hintText catalog))
    else if def_.defname == "database" then
      if simple_database.isSome then
        Except.error (ValidationError.duplicateOption "database" def_.value)
      else
        validatorLoop catalog (some def_.value) simple_table rest
    else if def_.defname == "table" then
      if simple_table.isSome then
        Except.error (ValidationError.duplicateOption "table" def_.value)
      else
        validatorLoop catalog simple_database (some def_.value) rest
    else
      validatorLoop catalog simple_database simple_table rest

/-- simple_fdw.c lines 156-222: validate one options list against one
catalog context, with both seen-markers starting NULL. -/
def simple_fdw_validator (options_list : List DefElem) (catalog : Catalog) :
    Except ValidationError Unit :=
  validatorLoop catalog none none options_list

/-- The single error `simpleGetOptions` can raise (simple_fdw.c lines
275-279): "a database and a table must be specified". -/
inductive ConfigError where
  | missingRequired
deriving Repr, DecidableEq

/-- The foreach loop of `simpleGetOptions` (simple_fdw.c lines 263-272):
every "database" entry overwrites the captured database value and every
"table" entry overwrites the captured table value; nothing else happens, in
particular no duplicate is rejected. -/
def scanOptions : List DefElem → Option String → Option String →
    Option String × Option String
  | [], database, table => (database, table)
  | def_ :: rest, database, table =>
    scanOptions rest
      (if def_.defname == "database" then some def_.value else database)
      (if def_.defname == "table" then some def_.value else table)

/-- simple_fdw.c lines 244-280: fetch the options of a foreign table.  The
options list is built by concatenating the table's own options first and
the server's options second (lines 258-260), the loop captures the two
recognized keys (both out-pointers start NULL in the caller), and the final
check errors exactly when BOTH captured values are still NULL
(`!*database && !*table`, line 275). -/
def simpleGetOptions (tableOptions serverOptions : List DefElem) :
    Except ConfigError (Option String × Option String) :=
  let options := tableOptions ++ serverOptions
  let captured := scanOptions options none none
  if captured.1.isNone && captured.2.isNone then
    Except.error ConfigError.missingRequired
  else
    Except.ok captured

/-- The last-occurrence-wins reading of option capture, written from the
claim's own words for comparison with `scanOptions`: the value of the last
entry of the list carrying this key, if any. -/
def lastWinsValue (key : String) (options : List DefElem) : Option String :=
  ((options.filter fun d => d.defname == key).map fun d => d.value).getLast?

/-- The value of the second occurrence of a key in a single options list,
written from the claim's words ("carrying the repeated value"). -/
def secondOccurrenceValue (key : String) (options : List DefElem) : Option String :=
  ((options.filter fun d => d.defname == key).map fun d => d.value).get? 1

/-! ## The scan executor and its engine model -/

/-- Model of an opened sqlite3 database handle.  `rows` is the row set the
scan's query returns against this database, every column already rendered
as text (the spec's engine boundary: all values are read with
`sqlite3_column_text`).  `prepareOk` and `prepareErrmsg` model whether
compiling the scan's query against this handle succeeds and, when it does
not, the message `sqlite3_errmsg` reports. -/
structure SqliteDb where
  prepareOk : Bool
  prepareErrmsg : String
  rows : List (List String)
deriving Repr, DecidableEq

/-- Model of a prepared statement: a cursor over the result rows, `pos`
being the index of the next row a step will deliver. -/
structure SqliteStmt where
  rows : List (List String)
  pos : Nat
deriving Repr, DecidableEq

/-- The errors the scan executor can raise: open failure (simple_fdw.c
lines 358-364, carrying the path and the engine message) and prepare
failure (lines 397-403, carrying the engine message). -/
inductive ScanError where
  | openFailed (path : String) (engineMessage : String)
  | prepareFailed (engineMessage : String)
deriving Repr, DecidableEq

/-- The embedded engine as seen through `sqlite3_open`: whether opening a
given path fails, the error message in that case, and the database handle
delivered on success. -/
structure SqliteEngine where
  openFails : String → Bool
  openErrmsg : String → String
  dbAt : String → SqliteDb

/-- Engine model of `sqlite3_prepare` on a live connection: on success the
statement is a cursor over the connection's rows, positioned before the
first row. -/
def sqlite3_prepare (conn : SqliteDb) : Except ScanError SqliteStmt :=
  if conn.prepareOk then
    Except.ok { rows := conn.rows, pos := 0 }
  else
    Except.error (ScanError.prepareFailed conn.prepareErrmsg)

/-- Engine model of `sqlite3_step`: deliver the row at the cursor position
and advance, or signal end of data (no row) leaving the exhausted cursor
where it is. -/
def sqlite3_step (stmt : SqliteStmt) : Option (List String) × SqliteStmt :=
  match stmt.rows[stmt.pos]? with
  | some row => (some row, { stmt with pos := stmt.pos + 1 })
  | none => (none, stmt)

/-- Engine model of `sqlite3_column_count` for the current row. -/
def sqlite3_column_count (row : List String) : Nat := row.length

/-- Engine model of `sqlite3_column_text` for the current row. -/
def sqlite3_column_text (row : List String) (x : Nat) : String := row.getD x ""

/-- simple_fdw.c lines 126-131: the per-scan execution state stashed in
`fdw_state`.  Each C pointer field is an Option, none standing for NULL. -/
structure SimpleFdwExecutionState where
  conn : Option SqliteDb
  result : Option SqliteStmt
  query : Option String
deriving Repr, DecidableEq

/-- Trace of the engine calls `simpleBeginForeignScan` issues, used to state
which calls are (and are not) performed on each branch. -/
inductive EngineEvent where
  | openEv (path : String)
  | closeEv
deriving Repr, DecidableEq

/-- C snprintf into a buffer of `size` bytes: at most `size - 1` characters
of the formatted text are written (the last byte holds the terminator). -/
def snprintf (size : Nat) (formatted : List Char) : List Char :=
  formatted.take (size - 1)

/-- The query built at simple_fdw.c lines 366-369: a buffer of
strlen(table) + 15 bytes filled by snprintf with the format
"SELECT * FROM %s" applied to the table name, with no quoting and no
escaping. -/
def buildQuery (svr_table : String) : String :=
  String.mk (snprintf (svr_table.length + 15) ("SELECT * FROM ".data ++ svr_table.data))

/-- simple_fdw.c lines 341-377, from the point where both options are
resolved: open the database (on failure, the `ereport(ERROR, ...)` at line
359 exits non-locally, so the `sqlite3_close(db)` at line 363 is dead code
and no close event is emitted), build the query, and stash the state with a
NULL result statement.  The second component is the trace of engine calls
performed. -/
def simpleBeginForeignScan (engine : SqliteEngine) (svr_database svr_table : String) :
    Except ScanError SimpleFdwExecutionState × List EngineEvent :=
  if engine.openFails svr_database then
    (Except.error (ScanError.openFailed svr_database (engine.openErrmsg svr_database)),
     [EngineEvent.openEv svr_database])
  else
    (Except.ok
      { conn := some (engine.dbAt svr_database)
        result := none
        query := some (buildQuery svr_table) },
     [EngineEvent.openEv svr_database])

/-- The state `simpleBeginForeignScan` stores on success: connection open,
no prepared statement yet, query text built. -/
def freshScanState (db : SqliteDb) (query : String) : SimpleFdwExecutionState :=
  { conn := some db, result := none, query := some query }

/-- The tail of `simpleIterateForeignScan` once a statement is at hand
(simple_fdw.c lines 406-422): clear the slot, step the cursor, and if a row
came back read every column of the row as text in column order (x from 0 to
`sqlite3_column_count` - 1) and store the tuple in the slot.  The stepped
cursor replaces the stored one (the C steps the statement in place); the
returned slot is the tuple, or none for the cleared slot (end of data). -/
def stepAndStore (festate : SimpleFdwExecutionState) (stmt : SqliteStmt) :
    SimpleFdwExecutionState × Option (List String) :=
  match sqlite3_step stmt with
  | (some row, stepped) =>
    ({ festate with result := some stepped },
     some ((List.range (sqlite3_column_count row)).map (sqlite3_column_text row)))
  | (none, stepped) =>
    ({ festate with result := some stepped }, none)

/-- simple_fdw.c lines 379-423: if no statement is prepared yet, prepare
one from the stored connection (a prepare failure raises through
`ereport(ERROR, ...)` at line 398, so the `sqlite3_close` at line 402 is
dead code and the state is unchanged); then step the cursor and fill the
slot.  Calling through a NULL connection is the engine's misuse error. -/
def simpleIterateForeignScan (festate : SimpleFdwExecutionState) :
    Except ScanError (SimpleFdwExecutionState × Option (List String)) :=
  match festate.result with
  | some stmt => Except.ok (stepAndStore festate stmt)
  | none =>
    match festate.conn with
    | some conn =>
      match sqlite3_prepare conn with
      | Except.ok stmt => Except.ok (stepAndStore festate stmt)
      | Except.error e => Except.error e
    | none => Except.error (ScanError.prepareFailed "library routine called out of sequence")

/-- simple_fdw.c lines 425-429: the rescan callback only logs; it touches
nothing. -/
def simpleReScanForeignScan (festate : SimpleFdwExecutionState) :
    SimpleFdwExecutionState :=
  festate

/-- The releases `simpleEndForeignScan` performs, in order: finalize the
statement, close the connection, free the query buffer. -/
inductive ReleaseEvent where
  | finalize
  | close
  | freeQuery
deriving Repr, DecidableEq

/-- simple_fdw.c lines 431-456: release each resource that is still set, in
the fixed order statement / connection / query, NULLing each released field.
The second component is the trace of releases performed. -/
def simpleEndForeignScan (festate : SimpleFdwExecutionState) :
    SimpleFdwExecutionState × List ReleaseEvent :=
  let (result, ev₁) :=
    match festate.result with
    | some _ => ((none : Option SqliteStmt), [ReleaseEvent.finalize])
    | none => (festate.result, [])
  let (conn, ev₂) :=
    match festate.conn with
    | some _ => ((none : Option SqliteDb), [ReleaseEvent.close])
    | none => (festate.conn, [])
  let (query, ev₃) :=
    match festate.query with
    | some _ => ((none : Option String), [ReleaseEvent.freeQuery])
    | none => (festate.query, [])
  ({ conn := conn, result := result, query := query }, ev₁ ++ ev₂ ++ ev₃)

/-- Run `simpleIterateForeignScan` a given number of times from a state,
collecting the slot contents of each call in order. -/
def iterateRun : Nat → SimpleFdwExecutionState →
    Except ScanError (SimpleFdwExecutionState × List (Option (List String)))
  | 0, festate => Except.ok (festate, [])
  | n + 1, festate =>
    match simpleIterateForeignScan festate with
    | Except.error e => Except.error e
    | Except.ok (festate', slot) =>
      match iterateRun n festate' with
      | Except.error e => Except.error e
      | Except.ok (festate'', slots) => Except.ok (festate'', slot :: slots)

/-! ## Helper lemmas on option capture -/

lemma getLast?_cons_or {α : Type} (a : α) (l : List α) :
    (a :: l).getLast? = l.getLast?.or (some a) := by
  induction l generalizing a with
  | nil => rfl
  | cons b l ih =>
    rw [List.getLast?_cons_cons, ih b]
    cases l.getLast? <;> rfl

lemma lastWinsValue_cons (k : String) (e : DefElem) (rest : List DefElem) :
    lastWinsValue k (e :: rest) =
      (lastWinsValue k rest).or (if e.defname == k then some e.value else none) := by
  unfold lastWinsValue
  rw [List.filter_cons]
  cases h : (e.defname == k) <;> simp [h, getLast?_cons_or]

lemma scanOptions_eq (l : List DefElem) : ∀ database table : Option String,
    scanOptions l database table =
      ((lastWinsValue "database" l).or database, (lastWinsValue "table" l).or table) := by
  induction l with
  | nil =>
    intro d t
    simp [scanOptions, lastWinsValue]
  | cons e rest ih =>
    intro d t
    rw [scanOptions, ih, lastWinsValue_cons, lastWinsValue_cons,
      Option.or_assoc, Option.or_assoc]
    by_cases hd : e.defname == "database" <;> by_cases ht : e.defname == "table" <;>
      simp_all

lemma lastWinsValue_eq_none_iff (k : String) (l : List DefElem) :
    lastWinsValue k l = none ↔ ∀ d ∈ l, d.defname ≠ k := by
  unfold lastWinsValue
  rw [List.getLast?_eq_none_iff, List.map_eq_nil_iff, List.filter_eq_nil_iff]
  simp

lemma lastWinsValue_append (k : String) (l₁ l₂ : List DefElem) :
    lastWinsValue k (l₁ ++ l₂) = (lastWinsValue k l₂).or (lastWinsValue k l₁) := by
  induction l₁ with
  | nil => simp [lastWinsValue]
  | cons e rest ih =>
    rw [List.cons_append, lastWinsValue_cons, lastWinsValue_cons, ih, Option.or_assoc]

lemma simpleGetOptions_eq (tableOptions serverOptions : List DefElem) :
    simpleGetOptions tableOptions serverOptions =
      (if (lastWinsValue "database" (tableOptions ++ serverOptions)).isNone &&
          (lastWinsValue "table" (tableOptions ++ serverOptions)).isNone then
        Except.error ConfigError.missingRequired
      else
        Except.ok (lastWinsValue "database" (tableOptions ++ serverOptions),
                   lastWinsValue "table" (tableOptions ++ serverOptions))) := by
  simp only [simpleGetOptions]
  rw [scanOptions_eq, Option.or_none, Option.or_none]

lemma simpleGetOptions_error_of_none (tableOptions serverOptions : List DefElem)
    (h1 : lastWinsValue "database" (tableOptions ++ serverOptions) = none)
    (h2 : lastWinsValue "table" (tableOptions ++ serverOptions) = none) :
    simpleGetOptions tableOptions serverOptions = Except.error ConfigError.missingRequired := by
  rw [simpleGetOptions_eq, h1, h2]
  rfl

lemma simpleGetOptions_ok_of_ne (tableOptions serverOptions : List DefElem)
    (h : ¬(lastWinsValue "database" (tableOptions ++ serverOptions) = none ∧
           lastWinsValue "table" (tableOptions ++ serverOptions) = none)) :
    simpleGetOptions tableOptions serverOptions =
      Except.ok (lastWinsValue "database" (tableOptions ++ serverOptions),
                 lastWinsValue "table" (tableOptions ++ serverOptions)) := by
  rw [simpleGetOptions_eq]
  cases ha : lastWinsValue "database" (tableOptions ++ serverOptions) <;>
    cases hb : lastWinsValue "table" (tableOptions ++ serverOptions) <;>
      simp_all

/-- C1: resolution fails with the missing-required error exactly when, after
scanning the whole merged options list, neither a "database" entry nor a
"table" entry occurred; as soon as at least one of the two keys occurs
somewhere in the merged list, resolution succeeds. -/
theorem simpleGetOptions_missingRequired_iff (tableOptions serverOptions : List DefElem) :
    (simpleGetOptions tableOptions serverOptions = Except.error ConfigError.missingRequired ↔
      (∀ d ∈ tableOptions ++ serverOptions, d.defname ≠ "database") ∧
      (∀ d ∈ tableOptions ++ serverOptions, d.defname ≠ "table")) ∧
    ((∃ d ∈ tableOptions ++ serverOptions, d.defname = "database" ∨ d.defname = "table") →
      ∃ cfg, simpleGetOptions tableOptions serverOptions = Except.ok cfg) := by
  have hd := lastWinsValue_eq_none_iff "database" (tableOptions ++ serverOptions)
  have ht := lastWinsValue_eq_none_iff "table" (tableOptions ++ serverOptions)
  by_cases h1 : lastWinsValue "database" (tableOptions ++ serverOptions) = none <;>
    by_cases h2 : lastWinsValue "table" (tableOptions ++ serverOptions) = none
  · have hres := simpleGetOptions_error_of_none tableOptions serverOptions h1 h2
    refine ⟨⟨fun _ => ⟨hd.mp h1, ht.mp h2⟩, fun _ => hres⟩, ?_⟩
    rintro ⟨d, hmem, hkey | hkey⟩
    · exact absurd (hd.mp h1 d hmem) (by simp [hkey])
    · exact absurd (ht.mp h2 d hmem) (by simp [hkey])
  all_goals
    have hne : ¬(lastWinsValue "database" (tableOptions ++ serverOptions) = none ∧
        lastWinsValue "table" (tableOptions ++ serverOptions) = none) := by tauto
  all_goals
    have hres := simpleGetOptions_ok_of_ne tableOptions serverOptions hne
  all_goals
    exact ⟨⟨fun hcon => Except.noConfusion (hres.symm.trans hcon),
      fun hall => absurd ⟨hd.mpr hall.1, ht.mpr hall.2⟩ hne⟩, fun _ => ⟨_, hres⟩⟩

/-- Closed instance of C1: resolution with no options at all fails with the
missing-required error, and resolution with only a "table" option (no
"database") succeeds. -/
theorem simpleGetOptions_missingRequired_iff_witness :
    simpleGetOptions ([] : List DefElem) [] = Except.error ConfigError.missingRequired ∧
    ∃ cfg, simpleGetOptions [⟨"table", "people"⟩] [] = Except.ok cfg :=
  ⟨(simpleGetOptions_missingRequired_iff [] []).1.mpr (by simp),
   (simpleGetOptions_missingRequired_iff [⟨"table", "people"⟩] []).2
     ⟨⟨"table", "people"⟩, by simp, Or.inr rfl⟩⟩

/-- Counterexample to C2: with a "database" option at table level and
another at server level, the merged sequence holds the key twice, yet
resolution does not fail — it succeeds, and the captured value is the
server-level one, showing both that the second occurrence overrides the
first and that the table options come first in the concatenation (were the
order server-then-table, the table-level value would have won). -/
theorem simpleGetOptions_duplicate_key_counterexample :
    simpleGetOptions [⟨"database", "table-level.db"⟩] [⟨"database", "server-level.db"⟩] =
      Except.ok (some "server-level.db", none) ∧
    simpleGetOptions [⟨"database", "table-level.db"⟩] [⟨"database", "server-level.db"⟩] ≠
      Except.error ConfigError.missingRequired := by
  constructor
  · rfl
  · intro hcon
    exact Except.noConfusion hcon

/-- C2 as amended: resolution concatenates the table-level options first
and the server-level options second, and a recognized key occurring twice
in the merged sequence never causes a failure — the capture of each
occurrence overwrites the previous one, so the captured value is that of
the last occurrence of the key in the table-then-server sequence. -/
theorem simpleGetOptions_table_then_server_last_wins
    (tableOptions serverOptions : List DefElem) (k v : String)
    (hk : k = "database" ∨ k = "table")
    (hlast : lastWinsValue k (tableOptions ++ serverOptions) = some v) :
    ∃ cfg, simpleGetOptions tableOptions serverOptions = Except.ok cfg ∧
      (k = "database" → cfg.1 = some v) ∧ (k = "table" → cfg.2 = some v) := by
  have hne : ¬(lastWinsValue "database" (tableOptions ++ serverOptions) = none ∧
      lastWinsValue "table" (tableOptions ++ serverOptions) = none) := by
    rcases hk with hk | hk <;> rw [hk] at hlast <;> simp [hlast]
  refine ⟨_, simpleGetOptions_ok_of_ne tableOptions serverOptions hne, ?_, ?_⟩ <;>
    intro hkey <;> rw [hkey] at hlast <;> exact hlast

/-- Closed instance of the amended C2, at the counterexample's input: the
duplicated "database" key resolves to the server-level value, the last one
of the table-then-server sequence. -/
theorem simpleGetOptions_table_then_server_last_wins_witness :
    ∃ cfg,
      simpleGetOptions [⟨"database", "table-level.db"⟩] [⟨"database", "server-level.db"⟩] =
        Except.ok cfg ∧
      ("database" = "database" → cfg.1 = some "server-level.db") ∧
      ("database" = "table" → cfg.2 = some "server-level.db") :=
  simpleGetOptions_table_then_server_last_wins
    [⟨"database", "table-level.db"⟩] [⟨"database", "server-level.db"⟩]
    "database" "server-level.db" (Or.inl rfl) rfl

/-- C10: in resolution a repeated key never raises an error — whenever any
"database" or "table" entry occurs in the merged list, resolution succeeds
and each captured value is the last occurrence's in the merged list; and
since the table options are concatenated before the server options, a
server-level value for a key overrides any table-level one. -/
theorem simpleGetOptions_last_wins (tableOptions serverOptions : List DefElem)
    (h : ∃ d ∈ tableOptions ++ serverOptions, d.defname = "database" ∨ d.defname = "table") :
    simpleGetOptions tableOptions serverOptions =
      Except.ok (lastWinsValue "database" (tableOptions ++ serverOptions),
                 lastWinsValue "table" (tableOptions ++ serverOptions)) ∧
    (∀ v, lastWinsValue "database" serverOptions = some v →
      lastWinsValue "database" (tableOptions ++ serverOptions) = some v) ∧
    (∀ v, lastWinsValue "table" serverOptions = some v →
      lastWinsValue "table" (tableOptions ++ serverOptions) = some v) := by
  have hne : ¬(lastWinsValue "database" (tableOptions ++ serverOptions) = none ∧
      lastWinsValue "table" (tableOptions ++ serverOptions) = none) := by
    rintro ⟨hn1, hn2⟩
    obtain ⟨d, hmem, hkey | hkey⟩ := h
    · exact absurd ((lastWinsValue_eq_none_iff "database" _).mp hn1 d hmem) (by simp [hkey])
    · exact absurd ((lastWinsValue_eq_none_iff "table" _).mp hn2 d hmem) (by simp [hkey])
  refine ⟨simpleGetOptions_ok_of_ne tableOptions serverOptions hne, ?_, ?_⟩ <;>
    intro v hv <;> rw [lastWinsValue_append, hv] <;> rfl

/-- Closed instance of C10: a server-level "database" overrides a
table-level one, and the second of two server-level "table" entries
overrides the first; resolution succeeds throughout. -/
theorem simpleGetOptions_last_wins_witness :
    simpleGetOptions [⟨"database", "tbl.db"⟩] [⟨"database", "srv.db"⟩, ⟨"table", "t1"⟩, ⟨"table", "t2"⟩] =
      Except.ok (some "srv.db", some "t2") := by
  have h := simpleGetOptions_last_wins [⟨"database", "tbl.db"⟩]
    [⟨"database", "srv.db"⟩, ⟨"table", "t1"⟩, ⟨"table", "t2"⟩]
    ⟨⟨"database", "tbl.db"⟩, by simp, Or.inl rfl⟩
  exact h.1.trans (by rfl)

/-! ## Helper lemmas on the validator -/

lemma myIsValidOption_foreignServer (s : String) :
    myIsValidOption s Catalog.foreignServer = (s == "database") := by
  simp [myIsValidOption, valid_options, BEq.comm]

lemma myIsValidOption_foreignTable (s : String) :
    myIsValidOption s Catalog.foreignTable = (s == "table") := by
  simp [myIsValidOption, valid_options, BEq.comm]

/-- The single option name valid in a given catalog context. -/
lemma myIsValidOption_iff (s : String) (catalog : Catalog) :
    myIsValidOption s catalog = true ↔
      (catalog = Catalog.foreignServer ∧ s = "database") ∨
      (catalog = Catalog.foreignTable ∧ s = "table") := by
  cases catalog <;>
    simp [myIsValidOption_foreignServer, myIsValidOption_foreignTable]

/-- Reaching the first invalid entry: if every entry before `d` is valid
for the context and no recognized key occurs twice among them (counting a
key already marked seen), the loop reaches `d` and raises the
unknown-option error there. -/
lemma validatorLoop_reach (catalog : Catalog) (d : DefElem) (rest : List DefElem)
    (hd : myIsValidOption d.defname catalog = false) :
    ∀ (pre : List DefElem) (db tb : Option String),
    (∀ e ∈ pre, myIsValidOption e.defname catalog = true) →
    pre.countP (fun e => e.defname == "database") + (if db.isSome then 1 else 0) ≤ 1 →
    pre.countP (fun e => e.defname == "table") + (if tb.isSome then 1 else 0) ≤ 1 →
    validatorLoop catalog db tb (pre ++ d :: rest) =
      Except.error (ValidationError.unknownOption d.defname (hintText catalog)) := by
  intro pre
  induction pre with
  | nil =>
    intro db tb _ _ _
    simp [validatorLoop, hd]
  | cons e pre ih =>
    intro db tb hvalid hcd hct
    have he : myIsValidOption e.defname catalog = true := hvalid e (by simp)
    rw [List.countP_cons] at hcd hct
    rw [List.cons_append, validatorLoop, he]
    by_cases hdb : e.defname = "database"
    · have hdbnone : db = none := by
        cases db with
        | none => rfl
        | some v => simp [hdb] at hcd
      subst hdbnone
      simp only [hdb, beq_self_eq_true, if_true, Option.isSome_none, Bool.not_true,
        Bool.false_eq_true, if_false]
      have hnt : (e.defname == "table") = false := by simp [hdb]
      have h1 : pre.countP (fun e => e.defname == "database") + 1 ≤ 1 := by
        simpa [hdb] using hcd
      have h2 : pre.countP (fun e => e.defname == "table") +
          (if tb.isSome = true then 1 else 0) ≤ 1 := by
        simpa [hnt] using hct
      exact ih (some e.value) tb (fun x hx => hvalid x (by simp [hx]))
        (by simpa using h1) h2
    · by_cases htb : e.defname = "table"
      · have htbnone : tb = none := by
          cases tb with
          | none => rfl
          | some v => simp [htb] at hct
        subst htbnone
        have hnd : (e.defname == "database") = false := by simp [htb]
        simp only [htb, beq_self_eq_true, if_true, Option.isSome_none, Bool.not_true,
          Bool.false_eq_true, if_false, hnd]
        have h1 : pre.countP (fun e => e.defname == "database") +
            (if db.isSome = true then 1 else 0) ≤ 1 := by
          simpa [hnd] using hcd
        have h2 : pre.countP (fun e => e.defname == "table") + 1 ≤ 1 := by
          simpa [htb] using hct
        exact ih db (some e.value) (fun x hx => hvalid x (by simp [hx]))
          h1 (by simpa using h2)
      · have hnd : (e.defname == "database") = false := by simp [hdb]
        have hnt : (e.defname == "table") = false := by simp [htb]
        simp only [hnd, hnt, Bool.false_eq_true, if_false]
        have h1 : pre.countP (fun e => e.defname == "database") +
            (if db.isSome = true then 1 else 0) ≤ 1 := by
          simpa [hnd] using hcd
        have h2 : pre.countP (fun e => e.defname == "table") +
            (if tb.isSome = true then 1 else 0) ≤ 1 := by
          simpa [hnt] using hct
        exact ih db tb (fun x hx => hvalid x (by simp [hx])) h1 h2

/-- Counterexample to C8: in a list whose first offense is a duplicated
recognized key and whose first invalid key ("bogus") comes after it, the
validator fails with the duplicate-option error on the second "database"
entry, not with the unknown-option error the claim prescribes at the first
invalid entry. -/
theorem simple_fdw_validator_duplicate_preempts_unknown :
    simple_fdw_validator [⟨"database", "x"⟩, ⟨"database", "y"⟩, ⟨"bogus", "z"⟩]
        Catalog.foreignServer =
      Except.error (ValidationError.duplicateOption "database" "y") ∧
    simple_fdw_validator [⟨"database", "x"⟩, ⟨"database", "y"⟩, ⟨"bogus", "z"⟩]
        Catalog.foreignServer ≠
      Except.error (ValidationError.unknownOption "bogus" "database") :=
  ⟨rfl, fun hcon => ValidationError.noConfusion (Except.error.inj hcon)⟩

/-- C8 as amended: the validator fails with the unknown-option error at the
first entry whose key is not valid for the context — provided no recognized
key occurs twice among the entries before it (otherwise the duplicate error
fires first) — and the hint carried by the error is the comma-joined list
of valid keys for that context in the order of the option table: "database"
for the server context and "table" for the table context. -/
theorem simple_fdw_validator_unknownOption_first_invalid
    (catalog : Catalog) (pre : List DefElem) (d : DefElem) (rest : List DefElem)
    (hpre : ∀ e ∈ pre, myIsValidOption e.defname catalog = true)
    (hnodup : pre.countP (fun e => e.defname == "database") ≤ 1 ∧
              pre.countP (fun e => e.defname == "table") ≤ 1)
    (hd : myIsValidOption d.defname catalog = false) :
    simple_fdw_validator (pre ++ d :: rest) catalog =
      Except.error (ValidationError.unknownOption d.defname (hintText catalog)) ∧
    hintText Catalog.foreignServer = "database" ∧
    hintText Catalog.foreignTable = "table" := by
  refine ⟨?_, rfl, rfl⟩
  unfold simple_fdw_validator
  exact validatorLoop_reach catalog d rest hd pre none none hpre
    (by simpa using hnodup.1) (by simpa using hnodup.2)

/-- Closed instance of the amended C8: after one valid "database" option,
an entry with key "bogus" draws the unknown-option error whose hint is
exactly "database". -/
theorem simple_fdw_validator_unknownOption_first_invalid_witness :
    simple_fdw_validator ([⟨"database", "x"⟩] ++ ⟨"bogus", "z"⟩ :: []) Catalog.foreignServer =
      Except.error (ValidationError.unknownOption "bogus" (hintText Catalog.foreignServer)) ∧
    hintText Catalog.foreignServer = "database" ∧
    hintText Catalog.foreignTable = "table" :=
  simple_fdw_validator_unknownOption_first_invalid Catalog.foreignServer
    [⟨"database", "x"⟩] ⟨"bogus", "z"⟩ [] (by decide) (by decide) (by decide)

/-- Counterexample to C9: a list that does contain the recognized key
"database" twice, but whose first entry carries the unknown key "bogus",
fails with the unknown-option error, not with the duplicate-option error
the claim prescribes. -/
theorem simple_fdw_validator_unknown_preempts_duplicate :
    simple_fdw_validator [⟨"bogus", "z"⟩, ⟨"database", "x"⟩, ⟨"database", "y"⟩]
        Catalog.foreignServer =
      Except.error (ValidationError.unknownOption "bogus" "database") ∧
    simple_fdw_validator [⟨"bogus", "z"⟩, ⟨"database", "x"⟩, ⟨"database", "y"⟩]
        Catalog.foreignServer ≠
      Except.error (ValidationError.duplicateOption "database" "y") :=
  ⟨rfl, fun hcon => ValidationError.noConfusion (Except.error.inj hcon)⟩

/-- Two option names both valid for the same catalog context are equal:
the option table holds exactly one name per context. -/
lemma valid_defname_eq (catalog : Catalog) (s k : String)
    (hs : myIsValidOption s catalog = true) (hk : myIsValidOption k catalog = true) :
    s = k := by
  rcases (myIsValidOption_iff s catalog).mp hs with ⟨hc, he⟩ | ⟨hc, he⟩ <;>
    rcases (myIsValidOption_iff k catalog).mp hk with ⟨hc', hk'⟩ | ⟨hc', hk'⟩
  · rw [he, hk']
  · rw [hc] at hc'; exact absurd hc' (by simp)
  · rw [hc] at hc'; exact absurd hc' (by simp)
  · rw [he, hk']

/-- C9 as amended: for every options list containing the same recognized
key twice — written as pre, the first occurrence carrying v₁, mid, the
second occurrence carrying v₂, and an arbitrary tail, with the key
occurring in neither pre nor mid — as long as every entry up to and
including the second occurrence is valid for the context (the
counterexample's only proviso: no unknown key before the second
occurrence), the validator fails with the duplicate-option error naming
that key and carrying v₂, the value of the second occurrence.  Entries
after the second occurrence are unconstrained, so an unknown key later in
the list (as in the counterexample's input, moved after the duplicate)
does not disturb the error. -/
theorem simple_fdw_validator_duplicateOption_second_occurrence
    (catalog : Catalog) (k v₁ v₂ : String) (pre mid rest : List DefElem)
    (hpre : ∀ e ∈ pre ++ ⟨k, v₁⟩ :: mid, myIsValidOption e.defname catalog = true)
    (hnotk : ∀ e ∈ pre ++ mid, e.defname ≠ k) :
    simple_fdw_validator (pre ++ ⟨k, v₁⟩ :: (mid ++ ⟨k, v₂⟩ :: rest)) catalog =
      Except.error (ValidationError.duplicateOption k v₂) ∧
    secondOccurrenceValue k (pre ++ ⟨k, v₁⟩ :: (mid ++ ⟨k, v₂⟩ :: rest)) = some v₂ := by
  have hk : myIsValidOption k catalog = true := by
    simpa using hpre ⟨k, v₁⟩ (by simp)
  have hpre_nil : pre = [] := by
    cases pre with
    | nil => rfl
    | cons e t =>
      exact absurd (valid_defname_eq catalog e.defname k (hpre e (by simp)) hk)
        (hnotk e (by simp))
  subst hpre_nil
  have hmid_nil : mid = [] := by
    cases mid with
    | nil => rfl
    | cons e t =>
      exact absurd (valid_defname_eq catalog e.defname k (hpre e (by simp)) hk)
        (hnotk e (by simp))
  subst hmid_nil
  rcases (myIsValidOption_iff k catalog).mp hk with ⟨hc, hkey⟩ | ⟨hc, hkey⟩ <;>
    subst hc <;> subst hkey <;>
    exact ⟨by simp [simple_fdw_validator, validatorLoop, myIsValidOption_foreignServer,
        myIsValidOption_foreignTable],
      by simp [secondOccurrenceValue]⟩

/-- Closed instance of the amended C9, at an input the old narrower
reading missed: "database" twice followed by an unknown key still draws
the duplicate-option error carrying the second occurrence's value. -/
theorem simple_fdw_validator_duplicateOption_second_occurrence_witness :
    simple_fdw_validator [⟨"database", "x"⟩, ⟨"database", "y"⟩, ⟨"bogus", "z"⟩]
        Catalog.foreignServer =
      Except.error (ValidationError.duplicateOption "database" "y") ∧
    secondOccurrenceValue "database"
        [⟨"database", "x"⟩, ⟨"database", "y"⟩, ⟨"bogus", "z"⟩] = some "y" :=
  simple_fdw_validator_duplicateOption_second_occurrence Catalog.foreignServer
    "database" "x" "y" [] [] [⟨"bogus", "z"⟩] (by decide) (by decide)

/-! ## Helper lemmas on the scan executor -/

/-- Reading every column of the current row as text in column order
reproduces the row. -/
lemma buildTuple_eq_row (row : List String) :
    (List.range (sqlite3_column_count row)).map (sqlite3_column_text row) = row := by
  unfold sqlite3_column_count sqlite3_column_text
  apply List.ext_getElem
  · simp
  · intro i h1 h2
    simp [List.getD_eq_getElem, List.getElem?_eq_getElem h2]

/-- One iterate call on a state that already holds a prepared statement:
deliver the row at the cursor (advancing it), or the cleared slot once the
cursor is past the last row (leaving the state as it was). -/
lemma simpleIterateForeignScan_prepared (conn : Option SqliteDb) (query : Option String)
    (R : List (List String)) (p : Nat) :
    simpleIterateForeignScan ⟨conn, some ⟨R, p⟩, query⟩ =
      match R[p]? with
      | some row => Except.ok (⟨conn, some ⟨R, p + 1⟩, query⟩, some row)
      | none => Except.ok (⟨conn, some ⟨R, p⟩, query⟩, none) := by
  unfold simpleIterateForeignScan stepAndStore sqlite3_step
  cases hr : R[p]? <;> simp [hr, buildTuple_eq_row]

/-- Iterating any number of times on an exhausted cursor changes nothing
and yields only cleared slots. -/
lemma iterateRun_exhausted (k : Nat) (conn : Option SqliteDb) (query : Option String)
    (R : List (List String)) (p : Nat) (hp : R.length ≤ p) :
    iterateRun k ⟨conn, some ⟨R, p⟩, query⟩ =
      Except.ok (⟨conn, some ⟨R, p⟩, query⟩, List.replicate k none) := by
  induction k with
  | zero => rfl
  | succ k ih =>
    rw [iterateRun, simpleIterateForeignScan_prepared, List.getElem?_eq_none hp]
    simp [ih, List.replicate_succ]

/-- Running from cursor position `p`, `d` positions before the end, for
`d + 1 + k` calls delivers the remaining rows, then the cleared slot, then
`k` further cleared slots, ending at (and staying at) position length. -/
lemma iterateRun_from (conn : Option SqliteDb) (query : Option String)
    (R : List (List String)) :
    ∀ d p k : Nat, p + d = R.length →
    iterateRun (d + 1 + k) ⟨conn, some ⟨R, p⟩, query⟩ =
      Except.ok (⟨conn, some ⟨R, R.length⟩, query⟩,
        (R.drop p).map some ++ none :: List.replicate k none) := by
  intro d
  induction d with
  | zero =>
    intro p k hp
    have hp' : p = R.length := by omega
    subst hp'
    rw [show 0 + 1 + k = k + 1 from by omega,
      iterateRun_exhausted (k + 1) conn query R R.length (le_refl _), List.drop_length]
    simp [List.replicate_succ]
  | succ d ih =>
    intro p k hp
    have hplt : p < R.length := by omega
    have hmap : p < (R.map some).length := by simpa using hplt
    rw [show d + 1 + 1 + k = (d + 1 + k) + 1 from by omega, iterateRun,
      simpleIterateForeignScan_prepared, List.getElem?_eq_getElem hplt]
    have hrec := ih (p + 1) k (by omega)
    simp only [hrec]
    simp only [List.map_drop] at hrec ⊢
    rw [List.drop_eq_getElem_cons hmap, List.getElem_map]
    simp

/-- The first iterate call on a fresh scan state (statement still NULL)
prepares the statement and then behaves exactly like a call on the state
holding the fresh cursor. -/
lemma simpleIterateForeignScan_fresh (db : SqliteDb) (q : String)
    (hprep : db.prepareOk = true) :
    simpleIterateForeignScan (freshScanState db q) =
      simpleIterateForeignScan ⟨some db, some ⟨db.rows, 0⟩, some q⟩ := by
  unfold simpleIterateForeignScan freshScanState sqlite3_prepare stepAndStore sqlite3_step
  simp [hprep]

/-- Two states whose first iterate calls agree produce the same run of any
positive length. -/
lemma iterateRun_congr_first (n : Nat) (s t : SimpleFdwExecutionState)
    (h : simpleIterateForeignScan s = simpleIterateForeignScan t) :
    iterateRun (n + 1) s = iterateRun (n + 1) t := by
  rw [iterateRun, iterateRun, h]

/-- C3: on a freshly begun scan over a table of N rows (with a compilable
query), N + 1 + k iterate calls deliver exactly the N rows as tuples, in
order and each equal to its row (every column read as text in column
order, so the tuple width is the row's column count), then one cleared
slot (end of data), then k more cleared slots; the state after the N + 1st
call no longer changes, whatever k is. -/
theorem simpleIterateForeignScan_rows_then_end (db : SqliteDb) (q : String) (k : Nat)
    (hprep : db.prepareOk = true) :
    iterateRun (db.rows.length + 1 + k) (freshScanState db q) =
      Except.ok (⟨some db, some ⟨db.rows, db.rows.length⟩, some q⟩,
        db.rows.map some ++ none :: List.replicate k none) := by
  rw [show db.rows.length + 1 + k = (db.rows.length + k) + 1 from by omega,
    iterateRun_congr_first (db.rows.length + k) _ _
      (simpleIterateForeignScan_fresh db q hprep),
    show (db.rows.length + k) + 1 = db.rows.length + 1 + k from by omega,
    iterateRun_from (some db) (some q) db.rows db.rows.length 0 k (by omega)]
  rw [List.drop_zero]

/-- Closed instance of C3: a two-row table yields its two rows, then end
of data, then still end of data, and the state stops changing. -/
theorem simpleIterateForeignScan_rows_then_end_witness :
    iterateRun 4 (freshScanState ⟨true, "", [["1", "alice"], ["2", "bob"]]⟩ "SELECT * FROM people") =
      Except.ok (⟨some ⟨true, "", [["1", "alice"], ["2", "bob"]]⟩,
        some ⟨[["1", "alice"], ["2", "bob"]], 2⟩, some "SELECT * FROM people"⟩,
        [some ["1", "alice"], some ["2", "bob"], none, none]) :=
  simpleIterateForeignScan_rows_then_end ⟨true, "", [["1", "alice"], ["2", "bob"]]⟩
    "SELECT * FROM people" 1 rfl

/-- The snprintf of the begin callback never truncates: the buffer is
sized at strlen(table) + 15 and the formatted text is 14 + strlen(table)
characters, so the built query is byte-for-byte the literal prefix
followed by the table name, unquoted and unescaped. -/
lemma buildQuery_eq (t : String) : buildQuery t = "SELECT * FROM " ++ t := by
  unfold buildQuery snprintf
  rw [List.take_of_length_le]
  · rfl
  · rw [List.length_append]
    have h14 : ("SELECT * FROM ").data.length = 14 := rfl
    have ht : t.data.length = t.length := rfl
    omega

/-- C4: whenever the database opens, the scan state stored by the begin
callback carries exactly the query text "SELECT * FROM " followed by the
table name — no identifier quoting, no escaping of any character. -/
theorem simpleBeginForeignScan_query_exact (engine : SqliteEngine)
    (svr_database svr_table : String)
    (hopen : engine.openFails svr_database = false) :
    (simpleBeginForeignScan engine svr_database svr_table).1 =
      Except.ok (freshScanState (engine.dbAt svr_database) ("SELECT * FROM " ++ svr_table)) := by
  unfold simpleBeginForeignScan
  rw [hopen]
  simp [freshScanState, buildQuery_eq]

/-- An engine on which every open succeeds, backing a two-row table. -/
def demoEngine : SqliteEngine where
  openFails := fun _ => false
  openErrmsg := fun _ => ""
  dbAt := fun _ => { prepareOk := true, prepareErrmsg := "", rows := [["1", "alice"], ["2", "bob"]] }

/-- Closed instance of C4: with table name "people" the stored query text
is the literal string "SELECT * FROM people". -/
theorem simpleBeginForeignScan_query_exact_witness :
    (simpleBeginForeignScan demoEngine "/tmp/demo.db" "people").1 =
      Except.ok (freshScanState (demoEngine.dbAt "/tmp/demo.db") "SELECT * FROM people") :=
  simpleBeginForeignScan_query_exact demoEngine "/tmp/demo.db" "people" rfl

/-- C5: the rescan callback leaves every field of the scan state unchanged
(connection, statement, query text, cursor position); in particular, on a
state whose cursor is already past the last row, rescan followed by
iterate yields end of data immediately (and still leaves the state as it
was) instead of replaying rows. -/
theorem simpleReScanForeignScan_noop_end_of_data (festate : SimpleFdwExecutionState)
    (stmt : SqliteStmt) (hres : festate.result = some stmt)
    (hdone : stmt.rows.length ≤ stmt.pos) :
    simpleReScanForeignScan festate = festate ∧
    simpleIterateForeignScan (simpleReScanForeignScan festate) =
      Except.ok (festate, none) := by
  refine ⟨rfl, ?_⟩
  obtain ⟨conn, result, query⟩ := festate
  obtain ⟨R, p⟩ := stmt
  simp only at hres
  subst hres
  rw [simpleReScanForeignScan, simpleIterateForeignScan_prepared,
    List.getElem?_eq_none hdone]

/-- Closed instance of C5: on a one-row table fully iterated (cursor at
position 1), rescan changes nothing and the next iterate yields end of
data at once. -/
theorem simpleReScanForeignScan_noop_end_of_data_witness :
    simpleReScanForeignScan ⟨some ⟨true, "", [["a"]]⟩, some ⟨[["a"]], 1⟩, some "SELECT * FROM t"⟩ =
      ⟨some ⟨true, "", [["a"]]⟩, some ⟨[["a"]], 1⟩, some "SELECT * FROM t"⟩ ∧
    simpleIterateForeignScan (simpleReScanForeignScan
        ⟨some ⟨true, "", [["a"]]⟩, some ⟨[["a"]], 1⟩, some "SELECT * FROM t"⟩) =
      Except.ok (⟨some ⟨true, "", [["a"]]⟩, some ⟨[["a"]], 1⟩, some "SELECT * FROM t"⟩, none) :=
  simpleReScanForeignScan_noop_end_of_data
    ⟨some ⟨true, "", [["a"]]⟩, some ⟨[["a"]], 1⟩, some "SELECT * FROM t"⟩
    ⟨[["a"]], 1⟩ rfl (by decide)

/-- An engine on which every open fails with the stock sqlite message. -/
def failEngine : SqliteEngine where
  openFails := fun _ => true
  openErrmsg := fun _ => "unable to open database file"
  dbAt := fun _ => { prepareOk := false, prepareErrmsg := "", rows := [] }

/-- C6 (behavior at the failing input): when the engine cannot open the
path, the begin callback fails with the open-failed error carrying the
path and the engine message — but, because the error report exits
non-locally, the close written on that branch (line 363) is dead code: the
engine-call trace holds the open call and no close call. -/
theorem simpleBeginForeignScan_open_failure_no_close :
    simpleBeginForeignScan failEngine "/no/such/dir/simple.db" "people" =
      (Except.error (ScanError.openFailed "/no/such/dir/simple.db"
          "unable to open database file"),
       [EngineEvent.openEv "/no/such/dir/simple.db"]) ∧
    EngineEvent.closeEv ∉ (simpleBeginForeignScan failEngine "/no/such/dir/simple.db" "people").2 := by
  refine ⟨rfl, ?_⟩
  intro hmem
  rw [show (simpleBeginForeignScan failEngine "/no/such/dir/simple.db" "people").2 =
      [EngineEvent.openEv "/no/such/dir/simple.db"] from rfl] at hmem
  simp at hmem

/-- C7: the end callback releases the statement before the connection (its
release trace is an in-order subsequence of finalize / close / free-query,
each present exactly when the matching resource was still held), leaves
the state with every field NULL, and a second call on the resulting state
performs no release at all and leaves the state unchanged. -/
theorem simpleEndForeignScan_idempotent (festate : SimpleFdwExecutionState) :
    (simpleEndForeignScan festate).1 = ⟨none, none, none⟩ ∧
    simpleEndForeignScan (simpleEndForeignScan festate).1 = (⟨none, none, none⟩, []) ∧
    (simpleEndForeignScan festate).2.Sublist
      [ReleaseEvent.finalize, ReleaseEvent.close, ReleaseEvent.freeQuery] ∧
    (ReleaseEvent.finalize ∈ (simpleEndForeignScan festate).2 ↔ festate.result.isSome = true) ∧
    (ReleaseEvent.close ∈ (simpleEndForeignScan festate).2 ↔ festate.conn.isSome = true) ∧
    (ReleaseEvent.freeQuery ∈ (simpleEndForeignScan festate).2 ↔ festate.query.isSome = true) := by
  obtain ⟨conn, result, query⟩ := festate
  cases conn <;> cases result <;> cases query <;>
    refine ⟨rfl, rfl, ?_, ?_, ?_, ?_⟩ <;> simp [simpleEndForeignScan]

end SimpleFdw
